import Mathlib

/-!
Verification development for the calendar ETL pipeline (etl.py, sync.py).

Shallow embedding conventions:
* Machine floats for `start_hour` / `duration_minutes` are modelled as `ℚ`
  (all arithmetic the code performs on them is exact decimal arithmetic,
  plus explicit `round(x, k)` rounding, modelled by `round2` / `round1`).
* The external generation service is an oracle parameter: each dispatched
  batch consumes a list of attempt outcomes, `none` standing for any
  response that fails JSON parsing / validation, `some v` for a response
  parsed into the expected shape.
* Python `datetime` handling is embedded through the standard
  civil-date <-> day-number algorithms; a configured time zone is a pair
  of offset functions (minutes east of UTC): one keyed by the UTC instant
  (used by `astimezone`), one keyed by a wall-clock date (used when a
  `ZoneInfo` is attached to a date-only value by `replace(tzinfo=...)`).
* Fallible code (`strptime` / `fromisoformat` raising `ValueError`)
  returns `Except String _`.
-/

-- ──────────────────────────────────────────────
-- Generic helpers
-- ──────────────────────────────────────────────

deriving instance DecidableEq for Except

/-- Round to the nearest integer, halves up: `⌊q + 1/2⌋`, written with
explicit flooring division so it evaluates.  (Python `round` breaks ties
to even on binary floats; no value the pipeline's claims exercise is a
tie or inexact, so this is a faithful model of `round(x, k)`.) -/
def roundHalfUp (q : ℚ) : ℤ := Int.fdiv (2 * q.num + q.den) (2 * q.den)

/-- Python `round(x, 2)` on the exact rational value. -/
def round2 (q : ℚ) : ℚ := (roundHalfUp (q * 100) : ℚ) / 100

/-- Python `round(x, 1)` on the exact rational value. -/
def round1 (q : ℚ) : ℚ := (roundHalfUp (q * 10) : ℚ) / 10

/-- Split a list into consecutive chunks of size `n`
(`for i in range(0, len(events), batch_size): events[i : i + batch_size]`).
Fuel-based so that the equations are structural; `chunks` supplies
`l.length` as fuel, which is always enough for `n > 0`. -/
def chunksAux (n : Nat) : Nat → List α → List (List α)
  | 0, _ => []
  | _, [] => []
  | fuel + 1, l => l.take n :: chunksAux n fuel (l.drop n)

def chunks (n : Nat) (l : List α) : List (List α) :=
  chunksAux n l.length l

/-- Lookup in an insertion-ordered association list (Python `dict` access). -/
def alistLookup (k : String) : List (String × α) → Option α
  | [] => none
  | p :: ps => if p.1 = k then some p.2 else alistLookup k ps

/-- Python `dict` assignment `d[k] = v`: overwrite in place if the key is
present, append otherwise. -/
def alistInsert (k : String) (v : α) : List (String × α) → List (String × α)
  | [] => [(k, v)]
  | p :: ps => if p.1 = k then (k, v) :: ps else p :: alistInsert k v ps

/-- Python `str.capitalize()`: first character upper-cased, the rest
lower-cased. -/
def capitalizePy (s : String) : String :=
  match s.toList with
  | [] => ""
  | c :: rest => String.mk (c.toUpper :: rest.map Char.toLower)

-- ──────────────────────────────────────────────
-- Temporal Normalizer (etl.parse_temporal_fields)
-- ──────────────────────────────────────────────

/-- A civil calendar date. -/
structure YMD where
  y : Nat
  m : Nat
  d : Nat
  deriving DecidableEq, Repr

/-- Days from civil date to days-since-1970-01-01 (the standard
`days_from_civil` algorithm, restricted to years ≥ 1 which covers every
calendar date the pipeline handles). -/
def daysFromCivil (ymd : YMD) : Int :=
  let y := if ymd.m ≤ 2 then ymd.y - 1 else ymd.y
  let era := y / 400
  let yoe := y % 400
  let mp := if ymd.m > 2 then ymd.m - 3 else ymd.m + 9
  let doy := (153 * mp + 2) / 5 + ymd.d - 1
  let doe := yoe * 365 + yoe / 4 - yoe / 100 + doy
  (era * 146097 + doe : Int) - 719468

/-- Inverse of `daysFromCivil` (the standard `civil_from_days` algorithm). -/
def civilFromDays (z : Int) : YMD :=
  let zn := (z + 719468).toNat
  let era := zn / 146097
  let doe := zn % 146097
  let yoe := ((doe - doe / 1460) + doe / 36524 - doe / 146096) / 365
  let y := yoe + era * 400
  let doy := doe - (365 * yoe + yoe / 4 - yoe / 100)
  let mp := (5 * doy + 2) / 153
  let d := doy - (153 * mp + 2) / 5 + 1
  let m := if mp < 10 then mp + 3 else mp - 9
  ⟨if m ≤ 2 then y + 1 else y, m, d⟩

/-- Weekday name as produced by `dt.strftime("%A")`, from days since
1970-01-01 (1970-01-01 was a Thursday). -/
def weekdayName (z : Int) : String :=
  match ((z + 4).emod 7).toNat with
  | 0 => "Sunday"
  | 1 => "Monday"
  | 2 => "Tuesday"
  | 3 => "Wednesday"
  | 4 => "Thursday"
  | 5 => "Friday"
  | _ => "Saturday"

/-- The result of parsing one of the CSV `start_dt` / `end_dt` strings.
`dateOnly` is a string without `"T"` that `strptime("%Y-%m-%d")` accepts;
`stamped` is an ISO date-time with offset, normalised to minutes since
the 1970 epoch (UTC); `malformed` is any string both parsers reject. -/
inductive TimeField where
  | dateOnly (date : YMD)
  | stamped (utcMin : Int)
  | malformed
  deriving DecidableEq, Repr

/-- One flat CSV-row record (RawRecord of the spec). -/
structure RawEvent where
  event_id : String
  summary : String
  start_dt : TimeField
  end_dt : TimeField
  description : String := ""
  location : String := ""
  status : String := ""
  deriving DecidableEq, Repr

/-- The derived view returned by `parse_temporal_fields`. -/
structure TemporalFields where
  date : YMD
  year : Nat
  month : Nat
  day_of_week : String
  start_hour : ℚ
  duration_minutes : ℚ
  deriving DecidableEq, Repr

/-- A configured time zone: offset in minutes east of UTC, keyed by the
UTC instant (for `astimezone`), and keyed by a wall-clock date (for the
offset `ZoneInfo` reports when attached to a date-only midnight by
`replace(tzinfo=...)`). -/
structure Tz where
  offsetAtUtc : Int → Int
  offsetAtWallDate : YMD → Int

/-- etl.parse_temporal_fields.

Date-only branch: both endpoints must parse as `%Y-%m-%d`; the configured
zone is attached without converting the wall time, so every calendar field
comes straight from the written date.  The aware-datetime subtraction
`dt_end - dt_start` subtracts each endpoint's own UTC offset, hence the
`offsetAtWallDate` correction term in the duration.

Timestamped branch: `fromisoformat(...).astimezone(tz)` converts the
instant into the configured zone first, then every calendar field is
derived from the resulting local wall clock; the duration is the exact
difference of the two instants.

A timestamped start with a date-only end produces a naive `fromisoformat`
datetime whose subsequent `astimezone` depends on the host's local zone,
i.e. on state outside the pipeline; it is modelled as a failure. -/
def parse_temporal_fields (tz : Tz) (ev : RawEvent) : Except String TemporalFields :=
  match ev.start_dt with
  | .dateOnly s =>
    match ev.end_dt with
    | .dateOnly e =>
      let sd := daysFromCivil s
      let ed := daysFromCivil e
      let duration : ℚ := ((ed - sd) * 1440 + (tz.offsetAtWallDate s - tz.offsetAtWallDate e) : Int)
      .ok { date := s
            year := s.y
            month := s.m
            day_of_week := weekdayName sd
            start_hour := round2 0
            duration_minutes := round1 duration }
    | _ => .error "time data does not match format %Y-%m-%d"
  | .stamped u =>
    match ev.end_dt with
    | .stamped u2 =>
      let localMin := u + tz.offsetAtUtc u
      let dayNum := localMin.ediv 1440
      let minOfDay := localMin.emod 1440
      let ymd := civilFromDays dayNum
      .ok { date := ymd
            year := ymd.y
            month := ymd.m
            day_of_week := weekdayName dayNum
            start_hour := round2 ((minOfDay : ℚ) / 60)
            duration_minutes := round1 ((u2 - u : Int) : ℚ) }
    | _ => .error "host-zone-dependent or invalid end datetime"
  | .malformed => .error "invalid temporal string"

-- ──────────────────────────────────────────────
-- Pass 2: Structured Enrichment (etl.run_enrichment_batch,
-- etl.run_pass2_enrichment)
-- ──────────────────────────────────────────────

/-- One per-record object of a parsed enrichment response
(EnrichedRecord of the spec). -/
structure EnrichResult where
  event_id : String
  sub_activities : List String
  people : List String
  locations : List String
  categories : List String
  work_depth : Option String
  mood : Option String
  is_productive : Bool
  is_wasted_time : Bool
  deriving DecidableEq, Repr

/-- The minimal fallback record `run_enrichment_batch` builds for every
record of a batch whose service calls failed all retry attempts. -/
def minimalEnrichment (ev : RawEvent) : EnrichResult :=
  { event_id := ev.event_id
    sub_activities := [ev.summary]
    people := []
    locations := []
    categories := []
    work_depth := none
    mood := none
    is_productive := false
    is_wasted_time := false }

/-- The retry loop of `run_enrichment_batch`: up to `budget` service
calls, each attempt outcome drawn from `attempts` (`none` = response that
failed JSON parsing or the list check; a missing entry also counts as a
failed call).  Returns the parsed results of the first success, or the
minimal fallback for the whole batch, together with the number of
service calls made. -/
def batchGo (batch : List RawEvent) :
    Nat → List (Option (List EnrichResult)) → List EnrichResult × Nat
  | 0, _ => (batch.map minimalEnrichment, 0)
  | k + 1, [] =>
    let r := batchGo batch k []
    (r.1, r.2 + 1)
  | k + 1, none :: rest =>
    let r := batchGo batch k rest
    (r.1, r.2 + 1)
  | _ + 1, some v :: _ => (v, 1)

/-- etl.run_enrichment_batch: 3 attempts, then degrade. -/
def run_enrichment_batch (attempts : List (Option (List EnrichResult)))
    (batch : List RawEvent) : List EnrichResult × Nat :=
  batchGo batch 3 attempts

/-- State threaded through `run_pass2_enrichment`'s batch loop: the
enrichment cache (a JSON object, modelled as an insertion-ordered
association list), the attempt outcomes still unconsumed (one entry per
dispatched batch), the number of service calls made so far, and the
batches actually dispatched to the service. -/
structure Pass2State where
  cache : List (String × EnrichResult)
  oracle : List (List (Option (List EnrichResult)))
  calls : Nat
  dispatched : List (List RawEvent)
  deriving Repr

/-- One iteration of the `run_pass2_enrichment` loop: filter the batch to
identifiers missing from the cache, skip entirely-cached batches, send
the rest through `run_enrichment_batch`, and map the results back into
the cache by `event_id` (skipping results whose `event_id` is falsy). -/
def pass2Step (st : Pass2State) (batch : List RawEvent) : Pass2State :=
  let uncached := batch.filter (fun ev => alistLookup ev.event_id st.cache = none)
  if uncached.isEmpty then st
  else
    let attempts := st.oracle.headD []
    let r := run_enrichment_batch attempts uncached
    let cache := r.1.foldl
      (fun c res => if res.event_id ≠ "" then alistInsert res.event_id res c else c)
      st.cache
    { cache := cache
      oracle := st.oracle.tail
      calls := st.calls + r.2
      dispatched := st.dispatched ++ [uncached] }

/-- etl.run_pass2_enrichment: batches of 20, cache-filtered; returns the
final cache (the function's return value) plus bookkeeping. -/
def run_pass2_enrichment (events : List RawEvent)
    (cache : List (String × EnrichResult))
    (oracle : List (List (Option (List EnrichResult)))) : Pass2State :=
  (chunks 20 events).foldl pass2Step ⟨cache, oracle, 0, []⟩

-- ──────────────────────────────────────────────
-- Pass 1: Category Discovery (etl.run_discovery_batch,
-- etl.run_pass1_discovery)
-- ──────────────────────────────────────────────

/-- Retry loop of `run_discovery_batch`: like `batchGo`, with the
all-attempts-failed fallback assigning an empty tag list per record. -/
def discoveryGo (batch : List RawEvent) :
    Nat → List (Option (List (String × List String))) →
    List (String × List String) × Nat
  | 0, _ => (batch.map (fun ev => (ev.event_id, [])), 0)
  | k + 1, [] =>
    let r := discoveryGo batch k []
    (r.1, r.2 + 1)
  | k + 1, none :: rest =>
    let r := discoveryGo batch k rest
    (r.1, r.2 + 1)
  | _ + 1, some v :: _ => (v, 1)

/-- etl.run_discovery_batch: 3 attempts, then empty-tag fallback. -/
def run_discovery_batch (attempts : List (Option (List (String × List String))))
    (batch : List RawEvent) : List (String × List String) × Nat :=
  discoveryGo batch 3 attempts

/-- State of the `run_pass1_discovery` loop. -/
structure Pass1State where
  cache : List (String × List String)
  oracle : List (List (Option (List (String × List String))))
  calls : Nat
  deriving Repr

/-- One iteration of the `run_pass1_discovery` loop
(`cache.update(result)` merges every returned pair into the cache). -/
def pass1Step (st : Pass1State) (batch : List RawEvent) : Pass1State :=
  let uncached := batch.filter (fun ev => alistLookup ev.event_id st.cache = none)
  if uncached.isEmpty then st
  else
    let attempts := st.oracle.headD []
    let r := run_discovery_batch attempts uncached
    { cache := r.1.foldl (fun c p => alistInsert p.1 p.2 c) st.cache
      oracle := st.oracle.tail
      calls := st.calls + r.2 }

/-- etl.run_pass1_discovery: batches of 50, cache-filtered. -/
def run_pass1_discovery (events : List RawEvent)
    (cache : List (String × List String))
    (oracle : List (List (Option (List (String × List String))))) : Pass1State :=
  (chunks 50 events).foldl pass1Step ⟨cache, oracle, 0⟩

-- ──────────────────────────────────────────────
-- Taxonomy consolidation (etl.consolidate_taxonomy)
-- ──────────────────────────────────────────────

structure Category where
  name : String
  description : String
  raw_tags : List String
  deriving DecidableEq, Repr

structure Taxonomy where
  categories : List Category
  deriving DecidableEq, Repr

/-- The category names the enrichment system prompt offers as the valid
vocabulary (`category_names` in `build_enrichment_prompt`). -/
def validNames (t : Taxonomy) : List String :=
  t.categories.map (·.name)

/-- Python `str.lower()` (the tags are ASCII snake_case, for which
per-character lowering is exact). -/
def pyLower (s : String) : String := String.mk (s.toList.map Char.toLower)

/-- Python `str.strip()`: drop whitespace from both ends, written
structurally over the character list so it evaluates. -/
def pyStrip (s : String) : String :=
  String.mk (((s.toList.dropWhile Char.isWhitespace).reverse.dropWhile
    Char.isWhitespace).reverse)

/-- `tag.lower().strip()` normalisation applied before frequency
counting. -/
def normTag (s : String) : String := pyStrip (pyLower s)

/-- `tag_counts[tag] = tag_counts.get(tag, 0) + 1` on an
insertion-ordered association list. -/
def bumpTag (t : String) : List (String × Nat) → List (String × Nat)
  | [] => [(t, 1)]
  | p :: ps => if p.1 = t then (t, p.2 + 1) :: ps else p :: bumpTag t ps

/-- Frequency table over all normalised discovery tags, in first-seen
order (Python dict iteration order). -/
def tagCounts (discovery : List (String × List String)) : List (String × Nat) :=
  discovery.foldl (fun acc p => p.2.foldl (fun acc tag => bumpTag (normTag tag) acc) acc) []

/-- Stable insertion of one entry into a count-descending list: the new
entry goes after every entry of greater-or-equal count, matching the
stability of Python's `sorted(..., key=lambda x: -x[1])`. -/
def insertByCountDesc (x : String × Nat) : List (String × Nat) → List (String × Nat)
  | [] => [x]
  | y :: ys => if x.2 ≤ y.2 then y :: insertByCountDesc x ys else x :: y :: ys

/-- Stable sort by descending count. -/
def sortByCountDesc (l : List (String × Nat)) : List (String × Nat) :=
  l.foldl (fun acc x => insertByCountDesc x acc) []

/-- `sorted_tags[:200]`: the tag/count pairs the consolidation prompt is
built from. -/
def topTags (discovery : List (String × List String)) : List (String × Nat) :=
  (sortByCountDesc (tagCounts discovery)).take 200

/-- Outcome of `consolidate_taxonomy`: how many consolidation requests
were issued, the parse outcome (an unparseable response makes
`json.loads` raise, which propagates to the caller), and the taxonomy
artifacts persisted by `save_cache`. -/
structure ConsolidationResult where
  requests : Nat
  outcome : Except String Taxonomy
  savedArtifacts : List Taxonomy
  deriving Repr

/-- etl.consolidate_taxonomy.  The single service response is given as
its parse result (`none` = invalid JSON).  There is no retry loop and no
fallback: a parse failure is raised before `save_cache` runs. -/
def consolidate_taxonomy (discovery : List (String × List String))
    (parsed : Option Taxonomy) : ConsolidationResult :=
  let _prompt_tags := topTags discovery
  match parsed with
  | none => ⟨1, .error "json.JSONDecodeError", []⟩
  | some t => ⟨1, .ok t, [t]⟩

-- ──────────────────────────────────────────────
-- SQLite loading (etl.create_database, etl.upsert_events)
-- ──────────────────────────────────────────────

/-- One row of the `events` table (primary key `event_id`). -/
structure EventRow where
  event_id : String
  summary : String
  start_dt : TimeField
  end_dt : TimeField
  date : YMD
  year : Nat
  month : Nat
  day_of_week : String
  start_hour : ℚ
  duration_minutes : ℚ
  categories : String
  people : String
  locations : String
  work_depth : Option String
  mood : Option String
  is_productive : Bool
  is_wasted_time : Bool
  description : String
  location_raw : String
  deriving DecidableEq, Repr

/-- One row of the `sub_activities` table (`id` is the autoincrement
primary key; `event_id` is a plain foreign key, not unique). -/
structure SubActivityRow where
  id : Nat
  event_id : String
  activity : String
  category : Option String
  people : String
  deriving DecidableEq, Repr

/-- One row of the `event_people` table (no primary key at all). -/
structure EventPeopleRow where
  event_id : String
  person : String
  deriving DecidableEq, Repr

structure RelationalStore where
  events : List EventRow
  subActivities : List SubActivityRow
  eventPeople : List EventPeopleRow
  nextSubId : Nat
  deriving DecidableEq, Repr

def RelationalStore.empty : RelationalStore := ⟨[], [], [], 1⟩

/-- `INSERT OR REPLACE INTO events`: replace the row with the same
primary key in place, or append. -/
def upsertEventRow (r : EventRow) : List EventRow → List EventRow
  | [] => [r]
  | x :: xs => if x.event_id = r.event_id then r :: xs else x :: upsertEventRow r xs

/-- The enrichment `dict.get` defaults used by the loaders when an
identifier is absent from the enrichment cache
(`enrichment_cache.get(eid, {})` followed by per-field `.get` defaults;
`sub_activities` defaults to the single-item summary list). -/
def enrichmentFor (cache : List (String × EnrichResult)) (ev : RawEvent) : EnrichResult :=
  match alistLookup ev.event_id cache with
  | some e => e
  | none => minimalEnrichment ev

/-- The row built for one event by both loaders (their bodies are
identical): flattened enrichment plus temporal fields. -/
def buildEventRow (ev : RawEvent) (t : TemporalFields) (enr : EnrichResult) : EventRow :=
  { event_id := ev.event_id
    summary := ev.summary
    start_dt := ev.start_dt
    end_dt := ev.end_dt
    date := t.date
    year := t.year
    month := t.month
    day_of_week := t.day_of_week
    start_hour := t.start_hour
    duration_minutes := t.duration_minutes
    categories := String.intercalate "," enr.categories
    people := String.intercalate "," enr.people
    locations := String.intercalate "," enr.locations
    work_depth := enr.work_depth
    mood := enr.mood
    is_productive := enr.is_productive
    is_wasted_time := enr.is_wasted_time
    description := ev.description
    location_raw := ev.location }

/-- Insert one event and its dependent rows into the store, exactly as
the shared loop body of `create_database` / `upsert_events`:
`INSERT OR REPLACE` into `events`, plain `INSERT`s (autoincrement id)
into `sub_activities`, plain `INSERT`s into `event_people`. -/
def insertEventIntoStore (tz : Tz) (cache : List (String × EnrichResult))
    (store : RelationalStore) (ev : RawEvent) : Except String RelationalStore :=
  match parse_temporal_fields tz ev with
  | .error e => .error e
  | .ok t =>
    let enr := enrichmentFor cache ev
    let peopleStr := String.intercalate "," enr.people
    let primaryCategory := enr.categories.head?
    let subRows := enr.sub_activities.enum.map
      (fun p => SubActivityRow.mk (store.nextSubId + p.1) ev.event_id p.2 primaryCategory peopleStr)
    let peopleRows := enr.people.map (fun person => EventPeopleRow.mk ev.event_id person)
    .ok { events := upsertEventRow (buildEventRow ev t enr) store.events
          subActivities := store.subActivities ++ subRows
          eventPeople := store.eventPeople ++ peopleRows
          nextSubId := store.nextSubId + enr.sub_activities.length }

/-- etl.create_database: drop any existing database and load every event
into a fresh store.  There is no per-record error handling: the first
record whose temporal fields fail to parse raises out of the loop and
nothing is committed. -/
def create_database (tz : Tz) (events : List RawEvent)
    (cache : List (String × EnrichResult)) : Except String RelationalStore :=
  events.foldlM (insertEventIntoStore tz cache) RelationalStore.empty

/-- etl.upsert_events: insert into an existing store only the events
whose identifier is in `event_ids`; returns the store and the number of
events processed.  As in the source, membership in the id set is the
only filter and the loop body is the shared insert above. -/
def upsert_events (tz : Tz) (events : List RawEvent)
    (cache : List (String × EnrichResult)) (event_ids : List String)
    (store : RelationalStore) : Except String (RelationalStore × Nat) := do
  let processed := events.filter (fun ev => ev.event_id ∈ event_ids)
  let s ← processed.foldlM (insertEventIntoStore tz cache) store
  .ok (s, processed.length)

-- ──────────────────────────────────────────────
-- Vector store text construction (etl._time_band,
-- etl.construct_embedding_text, etl.upsert_vectors)
-- ──────────────────────────────────────────────

/-- etl._time_band. -/
def timeBand (start_hour : ℚ) : String :=
  if start_hour < 6 then "early morning"
  else if start_hour < 12 then "morning"
  else if start_hour < 17 then "afternoon"
  else if start_hour < 21 then "evening"
  else "late night"

/-- `day_of_week in ("Saturday", "Sunday")`. -/
def isWeekendDay (day_of_week : String) : Bool :=
  day_of_week = "Saturday" || day_of_week = "Sunday"

/-- Python truthiness of an optional string (`None` and `""` are falsy). -/
def truthy : Option String → Bool
  | none => false
  | some s => s ≠ ""

/-- etl.construct_embedding_text.  The `event` argument is accepted and
ignored, as in the source.  `parts` is joined with `"".join`. -/
def construct_embedding_text (activity : String) (activity_index : Nat)
    (all_sub_activities : List String) (_event : RawEvent)
    (enr : EnrichResult) (t : TemporalFields) : String :=
  let parts : List String :=
    if enr.locations ≠ [] then
      [activity ++ " at " ++ String.intercalate ", " enr.locations]
    else [activity]
  let parts :=
    if enr.categories ≠ [] then
      parts ++ ["(" ++ String.intercalate "/"
        (enr.categories.map (fun c => c.replace "_" " ")) ++ ")"]
    else parts
  let parts :=
    if all_sub_activities.length > 1 then
      let before : Option String :=
        if activity_index > 0 then some (all_sub_activities.getD (activity_index - 1) "")
        else none
      let after : Option String :=
        if activity_index < all_sub_activities.length - 1 then
          some (all_sub_activities.getD (activity_index + 1) "")
        else none
      let contextParts : List String :=
        (if truthy before then ["after " ++ before.getD ""] else []) ++
        (if truthy after then ["before " ++ after.getD ""] else [])
      if contextParts ≠ [] then
        parts ++ [". " ++ capitalizePy (String.intercalate ", " contextParts)]
      else parts
    else parts
  let timeStr :=
    (if isWeekendDay t.day_of_week then "Weekend" else "Weekday") ++ " " ++
      timeBand t.start_hour
  let parts := parts ++ [". " ++ timeStr]
  let parts :=
    if enr.people ≠ [] then parts ++ [", with " ++ String.intercalate ", " enr.people]
    else parts ++ [", solo"]
  let moodParts : List String :=
    (if truthy enr.mood then ["mood: " ++ enr.mood.getD ""] else []) ++
    (if enr.is_wasted_time then ["unproductive"]
     else if enr.is_productive then ["productive"] else [])
  let parts :=
    if moodParts ≠ [] then
      parts ++ [". " ++ capitalizePy (String.intercalate ", " moodParts) ++ "."]
    else parts
  String.join parts

/-- One LanceDB row (the embedding vector itself is produced by the
external embedding service and carries no pipeline logic; it is elided). -/
structure VectorRecord where
  text : String
  event_id : String
  activity : String
  parent_summary : String
  category : String
  categories : String
  date : YMD
  year : Nat
  month : Nat
  day_of_week : String
  start_hour : ℚ
  duration_minutes : ℚ
  people : String
  locations : String
  mood : String
  work_depth : String
  is_productive : Bool
  is_wasted_time : Bool
  deriving DecidableEq, Repr

/-- The record-building loop shared by `create_vector_store` and
`upsert_vectors` for one event. -/
def vectorRecordsForEvent (tz : Tz) (cache : List (String × EnrichResult))
    (ev : RawEvent) : Except String (List VectorRecord) := do
  let enr := enrichmentFor cache ev
  let t ← parse_temporal_fields tz ev
  let primaryCategory := (enr.categories.headD "")
  .ok <| enr.sub_activities.enum.map fun p =>
    { text := construct_embedding_text p.2 p.1 enr.sub_activities ev enr t
      event_id := ev.event_id
      activity := p.2
      parent_summary := ev.summary
      category := primaryCategory
      categories := String.intercalate "," enr.categories
      date := t.date
      year := t.year
      month := t.month
      day_of_week := t.day_of_week
      start_hour := t.start_hour
      duration_minutes := t.duration_minutes
      people := String.intercalate "," enr.people
      locations := String.intercalate "," enr.locations
      mood := enr.mood.getD ""
      work_depth := enr.work_depth.getD ""
      is_productive := enr.is_productive
      is_wasted_time := enr.is_wasted_time }

/-- etl.upsert_vectors: build records for the events whose identifier is
in `event_ids` and append them to the existing table. -/
def upsert_vectors (tz : Tz) (events : List RawEvent)
    (cache : List (String × EnrichResult)) (event_ids : List String)
    (vectors : List VectorRecord) : Except String (List VectorRecord × Nat) := do
  let processed := events.filter (fun ev => ev.event_id ∈ event_ids)
  let records ← processed.foldlM
    (fun acc ev => do
      let rs ← vectorRecordsForEvent tz cache ev
      pure (acc ++ rs))
    ([] : List VectorRecord)
  .ok (vectors ++ records, records.length)

-- ──────────────────────────────────────────────
-- Incremental Sync Orchestrator (sync._sync_events)
-- ──────────────────────────────────────────────

def pad2 (n : Nat) : String := if n < 10 then "0" ++ toString n else toString n

/-- `dt.strftime("%Y-%m-%d")`. -/
def ymdString (d : YMD) : String :=
  toString d.y ++ "-" ++ pad2 d.m ++ "-" ++ pad2 d.d

/-- Lexicographic order on dates; `sorted` over the zero-padded date
strings is chronological, i.e. this order. -/
def ymdLe (a b : YMD) : Bool :=
  a.y < b.y || (a.y = b.y && (a.m < b.m || (a.m = b.m && a.d ≤ b.d)))

def insertYMD (x : YMD) : List YMD → List YMD
  | [] => [x]
  | y :: ys => if ymdLe x y then x :: y :: ys else y :: insertYMD x ys

def sortYMD (l : List YMD) : List YMD :=
  l.foldl (fun acc x => insertYMD x acc) []

/-- `Counter` bump keyed by date. -/
def bumpYMD (d : YMD) : List (YMD × Nat) → List (YMD × Nat)
  | [] => [(d, 1)]
  | p :: ps => if p.1 = d then (d, p.2 + 1) :: ps else p :: bumpYMD d ps

/-- The non-empty-diff status message of `_sync_events` (count of
distinct new identifiers, per-date breakdown, date range). -/
def syncSummary (n : Nat) (fields : List TemporalFields) : String :=
  let counts := fields.foldl (fun acc f => bumpYMD f.date acc) []
  let dates := sortYMD (counts.map (·.1))
  let lines :=
    ["Synced " ++ toString n ++ " new events into the database.\n",
     "New events by date:"]
    ++ dates.map (fun d =>
        "  " ++ ymdString d ++ ": " ++
          toString (((counts.lookup d).getD 0)) ++ " events")
    ++ ["\nDate range: " ++ ymdString (dates.headD ⟨0, 0, 0⟩) ++ " to " ++
          ymdString (dates.getLastD ⟨0, 0, 0⟩)]
  String.intercalate "\n" lines

/-- The durable and process-local state `_sync_events` can touch: the
raw-record CSV log, the two durable caches, the relational store, the
vector table, and the process-local vector handle cache that
`invalidate_vector_cache` clears. -/
structure SyncState where
  csvLog : List RawEvent
  discoveryCache : List (String × List String)
  enrichmentCache : List (String × EnrichResult)
  store : RelationalStore
  vectors : List VectorRecord
  vectorHandleCached : Bool
  deriving DecidableEq, Repr

/-- The diff step of `_sync_events`: identifiers already present in the
`events` table are read into a set, and the fetched records whose
identifier is not in it (exact string equality) are the new ones. -/
def newEventsOf (st : SyncState) (fetched : List RawEvent) : List RawEvent :=
  fetched.filter (fun ev => ev.event_id ∉ st.store.events.map (·.event_id))

/-- sync._sync_events.

Reads the identifiers already present in the `events` table, keeps the
fetched records whose identifier is not among them (exact string
equality), and if none remain returns the up-to-date message without
touching any state.  Otherwise: append the new raw records to the CSV
log, run Discovery and Enrichment scoped to the new records (the source
routes these calls through per-user `data_dir` file paths; the oracles
stand for the service responses), upsert into the relational store,
append into the vector table, drop the process-local vector handle, and
build the summary message from each new record's temporal fields. -/
def sync_events (tz : Tz)
    (oracle1 : List (List (Option (List (String × List String)))))
    (oracle2 : List (List (Option (List EnrichResult))))
    (st : SyncState) (fetched : List RawEvent) :
    Except String (String × SyncState) :=
  let newEvents := newEventsOf st fetched
  let newIds := newEvents.map (·.event_id)
  if newEvents.isEmpty then
    .ok ("Database is up to date — no new events found.", st)
  else do
    let csvLog := st.csvLog ++ newEvents
    let p1 := run_pass1_discovery newEvents st.discoveryCache oracle1
    let p2 := run_pass2_enrichment newEvents st.enrichmentCache oracle2
    let su ← upsert_events tz newEvents p2.cache newIds st.store
    let vu ← upsert_vectors tz newEvents p2.cache newIds st.vectors
    let fieldsList ← newEvents.mapM (parse_temporal_fields tz)
    .ok (syncSummary newIds.dedup.length fieldsList,
         { csvLog := csvLog
           discoveryCache := p1.cache
           enrichmentCache := p2.cache
           store := su.1
           vectors := vu.1
           vectorHandleCached := false })

-- ──────────────────────────────────────────────
-- Theorems
-- ──────────────────────────────────────────────

theorem roundHalfUp_intCast (n : ℤ) : roundHalfUp (n : ℚ) = n := by
  unfold roundHalfUp
  rw [Rat.num_intCast, Rat.den_intCast]
  rw [Int.fdiv_eq_ediv _ (by norm_num)]
  omega

theorem round2_intCast (n : ℤ) : round2 (n : ℚ) = n := by
  unfold round2
  have h : ((n : ℚ) * 100) = ((n * 100 : ℤ) : ℚ) := by push_cast; ring
  rw [h, roundHalfUp_intCast]
  push_cast
  field_simp

theorem round1_intCast (n : ℤ) : round1 (n : ℚ) = n := by
  unfold round1
  have h : ((n : ℚ) * 10) = ((n * 10 : ℤ) : ℚ) := by push_cast; ring
  rw [h, roundHalfUp_intCast]
  push_cast
  field_simp

/-- C10: `_time_band` is total over all start-hour values and cuts them
into exactly the five bands at 6, 12, 17 and 21; being a function, it
assigns every input exactly one band. -/
theorem timeBand_partition (h : ℚ) :
    (h < 6 → timeBand h = "early morning") ∧
    (6 ≤ h → h < 12 → timeBand h = "morning") ∧
    (12 ≤ h → h < 17 → timeBand h = "afternoon") ∧
    (17 ≤ h → h < 21 → timeBand h = "evening") ∧
    (21 ≤ h → timeBand h = "late night") ∧
    (timeBand h = "early morning" ∨ timeBand h = "morning" ∨
      timeBand h = "afternoon" ∨ timeBand h = "evening" ∨
      timeBand h = "late night") := by
  unfold timeBand
  split_ifs with h1 h2 h3 h4 <;>
    simp only [not_lt] at * <;>
    refine ⟨?_, ?_, ?_, ?_, ?_, ?_⟩ <;>
    intros <;>
    first
      | rfl
      | (exfalso; linarith)
      | simp

/-- Witness for C10 at concrete inputs in each band. -/
theorem timeBand_partition_witness :
    timeBand 3 = "early morning" ∧ timeBand 9 = "morning" ∧
    timeBand 14 = "afternoon" ∧ timeBand 19 = "evening" ∧
    timeBand 23 = "late night" :=
  ⟨(timeBand_partition 3).1 (by decide),
   (timeBand_partition 9).2.1 (by decide) (by decide),
   (timeBand_partition 14).2.2.1 (by decide) (by decide),
   (timeBand_partition 19).2.2.2.1 (by decide) (by decide),
   (timeBand_partition 23).2.2.2.2.1 (by decide)⟩

/-- C9: the embedding text depends on the temporal fields only through
the coarse time band and the weekday/weekend flag — so it can never
contain the record's exact date, clock time or duration, all of which
may vary freely without changing the text — and it depends on the
sibling list only through its length and the entries immediately before
and after the given index, never the full list. -/
theorem construct_embedding_text_selective (activity : String) (idx : Nat)
    (subs1 subs2 : List String) (ev : RawEvent) (enr : EnrichResult)
    (t1 t2 : TemporalFields)
    (hband : timeBand t1.start_hour = timeBand t2.start_hour)
    (hwk : isWeekendDay t1.day_of_week = isWeekendDay t2.day_of_week)
    (hlen : subs1.length = subs2.length)
    (hbefore : subs1.getD (idx - 1) "" = subs2.getD (idx - 1) "")
    (hafter : subs1.getD (idx + 1) "" = subs2.getD (idx + 1) "") :
    construct_embedding_text activity idx subs1 ev enr t1 =
      construct_embedding_text activity idx subs2 ev enr t2 := by
  simp only [construct_embedding_text, hband, hwk, hlen, hbefore, hafter]

/-- Witness for C9: two sub-activity records differing in exact date,
hour, duration and in distant siblings produce identical embedding
text. -/
theorem construct_embedding_text_selective_witness :
    construct_embedding_text "b" 1 ["a", "b", "c", "X"]
        ⟨"e1", "s", .malformed, .malformed, "", "", ""⟩
        ⟨"e1", ["a", "b", "c", "X"], [], [], [], none, none, false, false⟩
        ⟨⟨2024, 6, 1⟩, 2024, 6, "Saturday", 9, 90⟩ =
      construct_embedding_text "b" 1 ["a", "b", "c", "Y"]
        ⟨"e1", "s", .malformed, .malformed, "", "", ""⟩
        ⟨"e1", ["a", "b", "c", "X"], [], [], [], none, none, false, false⟩
        ⟨⟨1999, 1, 7⟩, 1999, 1, "Sunday", 11, 5⟩ :=
  construct_embedding_text_selective "b" 1 ["a", "b", "c", "X"] ["a", "b", "c", "Y"]
    ⟨"e1", "s", .malformed, .malformed, "", "", ""⟩
    ⟨"e1", ["a", "b", "c", "X"], [], [], [], none, none, false, false⟩
    ⟨⟨2024, 6, 1⟩, 2024, 6, "Saturday", 9, 90⟩
    ⟨⟨1999, 1, 7⟩, 1999, 1, "Sunday", 11, 5⟩
    (by decide) (by decide) (by decide) (by decide) (by decide)

/-- The date-only example record of the spec: "2024-06-01" to
"2024-06-02". -/
def exDateOnlyEvent : RawEvent :=
  { event_id := "ex-date", summary := "all day"
    start_dt := .dateOnly ⟨2024, 6, 1⟩, end_dt := .dateOnly ⟨2024, 6, 2⟩ }

/-- 2024-06-01T09:00:00-07:00 as minutes since the 1970 epoch (UTC):
2024-06-01T16:00Z. -/
def exStampedStartUtc : Int := daysFromCivil ⟨2024, 6, 1⟩ * 1440 + 960

/-- The timestamped example record of the spec:
"2024-06-01T09:00:00-07:00" to "2024-06-01T10:30:00-07:00". -/
def exStampedEvent : RawEvent :=
  { event_id := "ex-stamp", summary := "meeting"
    start_dt := .stamped exStampedStartUtc
    end_dt := .stamped (exStampedStartUtc + 90) }

/-- Counterexample to C6 as stated: under the pipeline's default
configured time zone ("America/Chicago", whose offset at the example
instant is -300 minutes, i.e. CDT), the timestamped example record
"2024-06-01T09:00:00-07:00" → "2024-06-01T10:30:00-07:00" yields
start-hour 11.0, not the claimed 9.0 — `astimezone` converts the
-07:00 source offset into the configured zone before the hour is read. -/
theorem parse_temporal_fields_start_hour_cex :
    (parse_temporal_fields ⟨fun _ => -300, fun _ => -300⟩ exStampedEvent).map
        (·.start_hour) = .ok 11 ∧ (11 : ℚ) ≠ 9 := by
  constructor
  · simp only [parse_temporal_fields, exStampedEvent, Except.map]
    have he : (exStampedStartUtc + -300).emod 1440 = 660 := by decide
    rw [he]
    have h11 : ((660 : ℤ) : ℚ) / 60 = ((11 : ℤ) : ℚ) := by norm_num
    rw [h11, round2_intCast]
    norm_num
  · norm_num

/-- C6 (amended): the date-only example yields start-hour 0 for every
configured zone and duration 1440 whenever the zone's offsets at the two
midnights agree (there is no DST transition between them); the
timestamped example yields duration 90.0 for every configured zone, and
start-hour 9.0 exactly when the configured zone's offset at that instant
is -07:00 (e.g. US Pacific in June) — under the default configured zone
America/Chicago (-05:00 in June) it yields 11.0 instead.  Date-only
records derive every calendar field from the written date with no zone
conversion, and timestamped records are converted into the configured
zone before any calendar field is derived (the fields are a function of
the converted local instant). -/
theorem parse_temporal_fields_examples (tz : Tz) :
    ((parse_temporal_fields tz exDateOnlyEvent).map (·.start_hour) = .ok 0) ∧
    (tz.offsetAtWallDate ⟨2024, 6, 1⟩ = tz.offsetAtWallDate ⟨2024, 6, 2⟩ →
      (parse_temporal_fields tz exDateOnlyEvent).map (·.duration_minutes) = .ok 1440) ∧
    ((parse_temporal_fields tz exStampedEvent).map (·.duration_minutes) = .ok 90) ∧
    (tz.offsetAtUtc exStampedStartUtc = -420 →
      (parse_temporal_fields tz exStampedEvent).map (·.start_hour) = .ok 9) ∧
    (tz.offsetAtUtc exStampedStartUtc = -300 →
      (parse_temporal_fields tz exStampedEvent).map (·.start_hour) = .ok 11) ∧
    (∀ (tz' : Tz) (s e : YMD) (ev : RawEvent),
      ev.start_dt = .dateOnly s → ev.end_dt = .dateOnly e →
      (parse_temporal_fields tz ev).map
          (fun t => (t.date, t.year, t.month, t.day_of_week, t.start_hour)) =
        (parse_temporal_fields tz' ev).map
          (fun t => (t.date, t.year, t.month, t.day_of_week, t.start_hour))) ∧
    (∀ (tz' : Tz) (u u2 u' : Int) (ev ev' : RawEvent),
      ev.start_dt = .stamped u → ev.end_dt = .stamped u2 →
      ev'.start_dt = .stamped u' → ev'.end_dt = .stamped (u' + (u2 - u)) →
      u + tz.offsetAtUtc u = u' + tz'.offsetAtUtc u' →
      (parse_temporal_fields tz ev).map
          (fun t => (t.date, t.year, t.month, t.day_of_week, t.start_hour,
            t.duration_minutes)) =
        (parse_temporal_fields tz' ev').map
          (fun t => (t.date, t.year, t.month, t.day_of_week, t.start_hour,
            t.duration_minutes))) := by
  refine ⟨?_, ?_, ?_, ?_, ?_, ?_, ?_⟩
  · have h0 : round2 0 = 0 := by simpa using round2_intCast 0
    simp [parse_temporal_fields, exDateOnlyEvent, Except.map, h0]
  · intro h
    have hd : daysFromCivil ⟨2024, 6, 2⟩ - daysFromCivil ⟨2024, 6, 1⟩ = 1 := by decide
    simp only [parse_temporal_fields, exDateOnlyEvent, Except.map, h, hd]
    have h1 : ((1 : ℤ) * 1440 +
        (tz.offsetAtWallDate ⟨2024, 6, 2⟩ - tz.offsetAtWallDate ⟨2024, 6, 2⟩)) = (1440 : ℤ) := by
      ring
    rw [h1, round1_intCast]
    norm_num
  · simp only [parse_temporal_fields, exStampedEvent, Except.map]
    have h1 : exStampedStartUtc + 90 - exStampedStartUtc = (90 : ℤ) := by ring
    rw [h1, round1_intCast]
    norm_num
  · intro h
    simp only [parse_temporal_fields, exStampedEvent, Except.map, h]
    have he : (exStampedStartUtc + -420).emod 1440 = 540 := by decide
    rw [he]
    have h9 : ((540 : ℤ) : ℚ) / 60 = ((9 : ℤ) : ℚ) := by norm_num
    rw [h9, round2_intCast]
    norm_num
  · intro h
    simp only [parse_temporal_fields, exStampedEvent, Except.map, h]
    have he : (exStampedStartUtc + -300).emod 1440 = 660 := by decide
    rw [he]
    have h11 : ((660 : ℤ) : ℚ) / 60 = ((11 : ℤ) : ℚ) := by norm_num
    rw [h11, round2_intCast]
    norm_num
  · intro tz' s e ev hs he
    simp [parse_temporal_fields, hs, he, Except.map]
  · intro tz' u u2 u' ev ev' hs he hs' he' hloc
    simp only [parse_temporal_fields, hs, he, hs', he', Except.map, hloc,
      add_sub_cancel_left]

/-- Witness for C6 (amended) at concrete offsets: -420 (US Pacific)
reproduces the spec's 9.0, -300 (the default zone, America/Chicago)
gives 11.0, and a constant-offset zone gives the date-only example
duration 1440. -/
theorem parse_temporal_fields_examples_witness :
    (parse_temporal_fields ⟨fun _ => -420, fun _ => -420⟩ exStampedEvent).map
        (·.start_hour) = .ok 9 ∧
    (parse_temporal_fields ⟨fun _ => -300, fun _ => -300⟩ exStampedEvent).map
        (·.start_hour) = .ok 11 ∧
    (parse_temporal_fields ⟨fun _ => -300, fun _ => -300⟩ exDateOnlyEvent).map
        (·.duration_minutes) = .ok 1440 :=
  ⟨(parse_temporal_fields_examples ⟨fun _ => -420, fun _ => -420⟩).2.2.2.1 rfl,
   (parse_temporal_fields_examples ⟨fun _ => -300, fun _ => -300⟩).2.2.2.2.1 rfl,
   (parse_temporal_fields_examples ⟨fun _ => -300, fun _ => -300⟩).2.1 rfl⟩

theorem bumpTag_keys {t : String} {acc : List (String × Nat)} {x : String}
    (hx : x ∈ (bumpTag t acc).map Prod.fst) : x = t ∨ x ∈ acc.map Prod.fst := by
  induction acc with
  | nil => simpa [bumpTag] using hx
  | cons q qs ih =>
    by_cases hq : q.1 = t
    · simp only [bumpTag, hq, if_pos rfl] at hx
      rcases List.mem_map.mp hx with ⟨p, hp, hpx⟩
      rcases List.mem_cons.mp hp with rfl | hp'
      · exact Or.inl hpx.symm
      · exact Or.inr (by subst hpx; exact List.mem_map_of_mem _ (List.mem_cons_of_mem _ hp'))
    · simp only [bumpTag, if_neg hq, List.map_cons, List.mem_cons] at hx
      rcases hx with rfl | hx'
      · exact Or.inr (by simp)
      · rcases ih hx' with h | h
        · exact Or.inl h
        · exact Or.inr (by simp [h])

theorem foldTags_keys {tags : List String} :
    ∀ (acc : List (String × Nat)) (x : String),
    x ∈ (tags.foldl (fun a tag => bumpTag (normTag tag) a) acc).map Prod.fst →
    x ∈ acc.map Prod.fst ∨ ∃ raw ∈ tags, x = normTag raw := by
  induction tags with
  | nil => intro acc x hx; exact Or.inl hx
  | cons tg tl ih =>
    intro acc x hx
    rcases ih (bumpTag (normTag tg) acc) x hx with h | ⟨raw, hraw, hx'⟩
    · rcases bumpTag_keys h with h' | h'
      · exact Or.inr ⟨tg, List.mem_cons_self _ _, h'⟩
      · exact Or.inl h'
    · exact Or.inr ⟨raw, List.mem_cons_of_mem _ hraw, hx'⟩

theorem tagCounts_keys {d : List (String × List String)} :
    ∀ (acc : List (String × Nat)) (x : String),
    x ∈ (d.foldl (fun acc p => p.2.foldl (fun a tag => bumpTag (normTag tag) a) acc) acc).map
        Prod.fst →
    x ∈ acc.map Prod.fst ∨ ∃ raw, (∃ pair ∈ d, raw ∈ pair.2) ∧ x = normTag raw := by
  induction d with
  | nil => intro acc x hx; exact Or.inl hx
  | cons pr tl ih =>
    intro acc x hx
    rcases ih _ x hx with h | ⟨raw, ⟨pair, hpair, hraw⟩, hx'⟩
    · rcases foldTags_keys _ x h with h' | ⟨raw, hraw, hx'⟩
      · exact Or.inl h'
      · exact Or.inr ⟨raw, ⟨pr, List.mem_cons_self _ _, hraw⟩, hx'⟩
    · exact Or.inr ⟨raw, ⟨pair, List.mem_cons_of_mem _ hpair, hraw⟩, hx'⟩

theorem mem_insertByCountDesc {x p : String × Nat} {l : List (String × Nat)} :
    p ∈ insertByCountDesc x l ↔ p = x ∨ p ∈ l := by
  induction l with
  | nil => simp [insertByCountDesc]
  | cons y ys ih =>
    by_cases h : x.2 ≤ y.2
    · simp only [insertByCountDesc, if_pos h, List.mem_cons, ih]
      tauto
    · simp only [insertByCountDesc, if_neg h, List.mem_cons]

theorem mem_sortByCountDesc_fold {l : List (String × Nat)} :
    ∀ (acc : List (String × Nat)) (p : String × Nat),
    p ∈ l.foldl (fun acc x => insertByCountDesc x acc) acc ↔ p ∈ acc ∨ p ∈ l := by
  induction l with
  | nil => intro acc p; simp
  | cons x xs ih =>
    intro acc p
    rw [List.foldl_cons, ih _ p, mem_insertByCountDesc]
    simp only [List.mem_cons]
    tauto

theorem sorted_insertByCountDesc {x : String × Nat} {l : List (String × Nat)}
    (h : l.Pairwise (fun a b => b.2 ≤ a.2)) :
    (insertByCountDesc x l).Pairwise (fun a b => b.2 ≤ a.2) := by
  induction l with
  | nil => simp [insertByCountDesc]
  | cons y ys ih =>
    rcases List.pairwise_cons.mp h with ⟨hy, hys⟩
    by_cases hle : x.2 ≤ y.2
    · rw [insertByCountDesc, if_pos hle]
      refine List.pairwise_cons.mpr ⟨?_, ih hys⟩
      intro z hz
      rcases mem_insertByCountDesc.mp hz with rfl | hz'
      · exact hle
      · exact hy z hz'
    · rw [insertByCountDesc, if_neg hle]
      refine List.pairwise_cons.mpr ⟨?_, h⟩
      intro z hz
      rcases List.mem_cons.mp hz with rfl | hz'
      · exact le_of_lt (lt_of_not_le hle)
      · exact le_trans (hy z hz') (le_of_lt (lt_of_not_le hle))

theorem sorted_sortByCountDesc_fold {l : List (String × Nat)} :
    ∀ {acc : List (String × Nat)}, acc.Pairwise (fun a b => b.2 ≤ a.2) →
    (l.foldl (fun acc x => insertByCountDesc x acc) acc).Pairwise (fun a b => b.2 ≤ a.2) := by
  induction l with
  | nil => intro acc h; exact h
  | cons x xs ih =>
    intro acc h
    rw [List.foldl_cons]
    exact ih (sorted_insertByCountDesc h)

/-- C7: an unparseable taxonomy-consolidation response is fatal: the
error propagates to the caller, exactly one consolidation request is
ever issued (no retry), and no taxonomy artifact is persisted; on
success the parsed taxonomy is returned and persisted, and the prompt's
tag list holds at most 200 entries, every one of them the
lowercased/stripped form of some raw discovery tag, each dropped tag's
frequency never exceeding any retained tag's frequency. -/
theorem consolidate_taxonomy_spec (d : List (String × List String))
    (parsed : Option Taxonomy) :
    (consolidate_taxonomy d parsed).requests = 1 ∧
    (parsed = none →
      (consolidate_taxonomy d parsed).outcome = .error "json.JSONDecodeError" ∧
      (consolidate_taxonomy d parsed).savedArtifacts = []) ∧
    (∀ t, parsed = some t →
      (consolidate_taxonomy d parsed).outcome = .ok t ∧
      (consolidate_taxonomy d parsed).savedArtifacts = [t]) ∧
    (topTags d).length ≤ 200 ∧
    (∀ p ∈ topTags d, ∃ raw, (∃ pair ∈ d, raw ∈ pair.2) ∧ p.1 = normTag raw) ∧
    (∀ a ∈ topTags d, ∀ b ∈ (sortByCountDesc (tagCounts d)).drop 200, b.2 ≤ a.2) := by
  refine ⟨?_, ?_, ?_, ?_, ?_, ?_⟩
  · cases parsed <;> rfl
  · rintro rfl; exact ⟨rfl, rfl⟩
  · rintro t rfl; exact ⟨rfl, rfl⟩
  · exact List.length_take_le _ _
  · intro p hp
    have hp' : p ∈ sortByCountDesc (tagCounts d) := List.mem_of_mem_take hp
    have hp'' : p ∈ tagCounts d := by
      rcases (mem_sortByCountDesc_fold [] p).mp hp' with h | h
      · cases h
      · exact h
    have hx : p.1 ∈ (tagCounts d).map Prod.fst := List.mem_map_of_mem _ hp''
    rcases tagCounts_keys [] p.1 hx with h | h
    · cases h
    · exact h
  · intro a ha b hb
    have hsorted : (sortByCountDesc (tagCounts d)).Pairwise (fun a b => b.2 ≤ a.2) :=
      sorted_sortByCountDesc_fold List.Pairwise.nil
    have hsplit := (List.take_append_drop 200 (sortByCountDesc (tagCounts d))).symm
    rw [hsplit] at hsorted
    exact (List.pairwise_append.mp hsorted).2.2 a ha b hb

/-- Witness for C7: a concrete failing parse propagates the error with
nothing persisted; a concrete successful parse is returned and persisted;
a concrete retained tag is the normalised form of a raw tag. -/
theorem consolidate_taxonomy_spec_witness :
    (consolidate_taxonomy [("e1", [" Work", "work "])] none).outcome =
        .error "json.JSONDecodeError" ∧
    (consolidate_taxonomy [("e1", [" Work", "work "])] none).savedArtifacts = [] ∧
    (consolidate_taxonomy [("e1", [" Work", "work "])] (some ⟨[]⟩)).outcome = .ok ⟨[]⟩ ∧
    (∃ raw, (∃ pair ∈ [("e1", [" Work", "work "])], raw ∈ pair.2) ∧
      ("work", 2).1 = normTag raw) :=
  ⟨((consolidate_taxonomy_spec [("e1", [" Work", "work "])] none).2.1 rfl).1,
   ((consolidate_taxonomy_spec [("e1", [" Work", "work "])] none).2.1 rfl).2,
   ((consolidate_taxonomy_spec [("e1", [" Work", "work "])] (some ⟨[]⟩)).2.2.1 ⟨[]⟩ rfl).1,
   (consolidate_taxonomy_spec [("e1", [" Work", "work "])] none).2.2.2.2.1
     ("work", 2) (by decide)⟩

theorem exceptBind_ok {α β : Type} (a : α) (f : α → Except String β) :
    (Except.ok a >>= f) = f a := rfl

theorem exceptBind_error {α β : Type} (e : String) (f : α → Except String β) :
    ((Except.error e : Except String α) >>= f) = Except.error e := rfl

theorem mem_upsertEventRow_self (r : EventRow) (l : List EventRow) :
    r ∈ upsertEventRow r l := by
  induction l with
  | nil => simp [upsertEventRow]
  | cons x xs ih =>
    by_cases h : x.event_id = r.event_id
    · simp [upsertEventRow, h]
    · simp only [upsertEventRow, if_neg h, List.mem_cons]
      exact Or.inr ih

theorem mem_upsertEventRow_of_ne {x r : EventRow} {l : List EventRow}
    (hx : x ∈ l) (hne : x.event_id ≠ r.event_id) : x ∈ upsertEventRow r l := by
  induction l with
  | nil => cases hx
  | cons y ys ih =>
    by_cases h : y.event_id = r.event_id
    · rw [upsertEventRow, if_pos h]
      rcases List.mem_cons.mp hx with rfl | hx'
      · exact absurd h hne
      · exact List.mem_cons_of_mem _ hx'
    · rw [upsertEventRow, if_neg h]
      rcases List.mem_cons.mp hx with rfl | hx'
      · exact List.mem_cons_self _ _
      · exact List.mem_cons_of_mem _ (ih hx')

theorem exists_row_upsertEventRow {l : List EventRow} (r : EventRow) {id : String}
    (h : ∃ row ∈ l, row.event_id = id) :
    ∃ row ∈ upsertEventRow r l, row.event_id = id := by
  by_cases hid : id = r.event_id
  · exact ⟨r, mem_upsertEventRow_self r l, hid.symm⟩
  · obtain ⟨row, hrow, hrid⟩ := h
    exact ⟨row, mem_upsertEventRow_of_ne hrow (by rw [hrid]; exact fun hh => hid hh), hrid⟩

theorem insertEventIntoStore_ok {tz : Tz} {cache : List (String × EnrichResult)}
    {store : RelationalStore} {ev : RawEvent} {s : RelationalStore}
    (h : insertEventIntoStore tz cache store ev = .ok s) :
    ∃ t, parse_temporal_fields tz ev = .ok t ∧
      s.events = upsertEventRow (buildEventRow ev t (enrichmentFor cache ev)) store.events := by
  unfold insertEventIntoStore at h
  cases hp : parse_temporal_fields tz ev with
  | error e => rw [hp] at h; cases h
  | ok t =>
    rw [hp] at h
    cases h
    exact ⟨t, rfl, rfl⟩

theorem insertEventIntoStore_error {tz : Tz} {cache : List (String × EnrichResult)}
    {store : RelationalStore} {ev : RawEvent} {e : String}
    (h : parse_temporal_fields tz ev = .error e) :
    insertEventIntoStore tz cache store ev = .error e := by
  unfold insertEventIntoStore
  rw [h]

/-- The loader's fold: on success every initial row's identifier
survives, every processed event parsed successfully, and every processed
event's identifier has a row. -/
theorem loadFold_rows {tz : Tz} {cache : List (String × EnrichResult)} :
    ∀ (events : List RawEvent) (s0 s : RelationalStore),
    events.foldlM (insertEventIntoStore tz cache) s0 = .ok s →
    (∀ id, (∃ row ∈ s0.events, row.event_id = id) → ∃ row ∈ s.events, row.event_id = id) ∧
    (∀ ev ∈ events, ∃ t, parse_temporal_fields tz ev = .ok t) ∧
    (∀ ev ∈ events, ∃ row ∈ s.events, row.event_id = ev.event_id) := by
  intro events
  induction events with
  | nil =>
    intro s0 s h
    rw [List.foldlM_nil] at h
    cases h
    exact ⟨fun id hid => hid, by simp, by simp⟩
  | cons ev tl ih =>
    intro s0 s h
    rw [List.foldlM_cons] at h
    cases hstep : insertEventIntoStore tz cache s0 ev with
    | error e => rw [hstep, exceptBind_error] at h; cases h
    | ok s1 =>
      rw [hstep, exceptBind_ok] at h
      obtain ⟨hpres, hparse, hall⟩ := ih s1 s h
      obtain ⟨t, hpok, hev⟩ := insertEventIntoStore_ok hstep
      have hkeep : ∀ id, (∃ row ∈ s0.events, row.event_id = id) →
          ∃ row ∈ s.events, row.event_id = id := by
        intro id hid
        exact hpres id (hev ▸ exists_row_upsertEventRow _ hid)
      refine ⟨hkeep, ?_, ?_⟩
      · intro ev' hev'
        rcases List.mem_cons.mp hev' with rfl | h'
        · exact ⟨t, hpok⟩
        · exact hparse ev' h'
      · intro ev' hev'
        rcases List.mem_cons.mp hev' with rfl | h'
        · refine hpres ev'.event_id ?_
          rw [hev]
          exact ⟨_, mem_upsertEventRow_self _ _, rfl⟩
        · exact hall ev' h'

/-- The loader's fold propagates the first parse failure. -/
theorem loadFold_error {tz : Tz} {cache : List (String × EnrichResult)} :
    ∀ (events : List RawEvent) (s0 : RelationalStore),
    (∃ ev ∈ events, ∃ e, parse_temporal_fields tz ev = .error e) →
    ∃ e, events.foldlM (insertEventIntoStore tz cache) s0 = .error e := by
  intro events
  induction events with
  | nil => rintro s0 ⟨ev, hmem, _⟩; cases hmem
  | cons ev tl ih =>
    rintro s0 ⟨ev', hmem, e, he⟩
    rw [List.foldlM_cons]
    rcases List.mem_cons.mp hmem with rfl | h'
    · exact ⟨e, by rw [insertEventIntoStore_error he, exceptBind_error]⟩
    · cases hstep : insertEventIntoStore tz cache s0 ev with
      | error e2 => exact ⟨e2, exceptBind_error e2 _⟩
      | ok s1 =>
        obtain ⟨e3, he3⟩ := ih s1 ⟨ev', h', e, he⟩
        exact ⟨e3, by rw [exceptBind_ok, he3]⟩

/-- C3: a batch whose service calls fail all 3 retry attempts degrades
to the minimal record for every record in it (single sub-activity = the
record's title, empty people/locations/categories, null work-depth and
mood, both flags false), and every identifier of a successfully loaded
event set receives a row in the `events` table — in particular the
minimally-enriched ones are materialized, not absent. -/
theorem degraded_batch_fallback (attempts : List (Option (List EnrichResult)))
    (batch : List RawEvent) (tz : Tz) (events : List RawEvent)
    (cache : List (String × EnrichResult)) (s : RelationalStore)
    (hfail : ∀ a ∈ attempts.take 3, a = none)
    (hdb : create_database tz events cache = .ok s) :
    run_enrichment_batch attempts batch = (batch.map minimalEnrichment, 3) ∧
    (∀ ev, minimalEnrichment ev =
      ⟨ev.event_id, [ev.summary], [], [], [], none, none, false, false⟩) ∧
    (∀ ev ∈ events, ∃ row ∈ s.events, row.event_id = ev.event_id) := by
  refine ⟨?_, fun ev => rfl, (loadFold_rows events RelationalStore.empty s hdb).2.2⟩
  rcases attempts with _ | ⟨a, _ | ⟨b, _ | ⟨c, rest⟩⟩⟩
  · rfl
  · have ha : a = none := hfail a (by simp)
    subst ha; rfl
  · have ha : a = none := hfail a (by simp)
    have hb : b = none := hfail b (by simp)
    subst ha; subst hb; rfl
  · have ha : a = none := hfail a (by simp)
    have hb : b = none := hfail b (by simp)
    have hc : c = none := hfail c (by simp)
    subst ha; subst hb; subst hc; rfl

/-- Shared concrete time zone for witnesses. -/
def wTz : Tz := ⟨fun _ => 0, fun _ => 0⟩

/-- Shared concrete well-formed raw event for witnesses. -/
def wEv : RawEvent :=
  { event_id := "w1", summary := "walk"
    start_dt := .dateOnly ⟨2024, 6, 1⟩, end_dt := .dateOnly ⟨2024, 6, 2⟩ }

/-- Witness for C3 at a concrete all-failed batch and store load. -/
theorem degraded_batch_fallback_witness :
    run_enrichment_batch [none, none, none] [wEv] = ([minimalEnrichment wEv], 3) ∧
    ∃ s, create_database wTz [wEv] [] = .ok s ∧
      ∀ ev ∈ [wEv], ∃ row ∈ s.events, row.event_id = ev.event_id := by
  obtain ⟨s, hs⟩ : ∃ s, create_database wTz [wEv] [] = .ok s := ⟨_, rfl⟩
  have happ := degraded_batch_fallback [none, none, none] [wEv] wTz [wEv] [] s
    (by intro a ha; simpa using ha) hs
  exact ⟨by simpa using happ.1, s, hs, happ.2.2⟩

/-- Counterexample to C8 as stated: a batch holding a record with
unparseable temporal fields followed by a well-formed record makes
`create_database` raise out of the loop — the well-formed record is not
processed and nothing is committed, instead of only the bad record being
excluded. -/
theorem create_database_abort_cex :
    create_database wTz
      [{ event_id := "bad", summary := "oops",
         start_dt := .malformed, end_dt := .dateOnly ⟨2024, 6, 2⟩ }, wEv] [] =
      .error "invalid temporal string" := rfl

/-- C8 (amended): a record missing/unparseable temporal fields makes the
Temporal Normalizer raise, and `create_database` propagates the
exception, aborting the whole load — there is no per-record exclusion;
conversely a load that returns a store processed every record
successfully and materialized a row for each one. -/
theorem create_database_per_record (tz : Tz) (events : List RawEvent)
    (cache : List (String × EnrichResult)) :
    ((∃ ev ∈ events, ∃ e, parse_temporal_fields tz ev = .error e) →
      ∃ e, create_database tz events cache = .error e) ∧
    (∀ s, create_database tz events cache = .ok s →
      (∀ ev ∈ events, ∃ t, parse_temporal_fields tz ev = .ok t) ∧
      (∀ ev ∈ events, ∃ row ∈ s.events, row.event_id = ev.event_id)) := by
  constructor
  · intro hbad
    exact loadFold_error events RelationalStore.empty hbad
  · intro s hs
    exact ⟨(loadFold_rows events RelationalStore.empty s hs).2.1,
      (loadFold_rows events RelationalStore.empty s hs).2.2⟩

/-- Witness for C8 (amended): the concrete bad-plus-good batch aborts
with an error, and the all-good batch materializes every row. -/
theorem create_database_per_record_witness :
    (∃ e, create_database wTz
      [{ event_id := "bad", summary := "oops",
         start_dt := .malformed, end_dt := .dateOnly ⟨2024, 6, 2⟩ }, wEv] [] =
        .error e) ∧
    ∃ s, create_database wTz [wEv] [] = .ok s ∧
      ∀ ev ∈ [wEv], ∃ row ∈ s.events, row.event_id = ev.event_id := by
  constructor
  · exact (create_database_per_record wTz
      [{ event_id := "bad", summary := "oops",
         start_dt := .malformed, end_dt := .dateOnly ⟨2024, 6, 2⟩ }, wEv] []).1
      ⟨{ event_id := "bad", summary := "oops",
         start_dt := .malformed, end_dt := .dateOnly ⟨2024, 6, 2⟩ },
       by simp, "invalid temporal string", rfl⟩
  · obtain ⟨s, hs⟩ : ∃ s, create_database wTz [wEv] [] = .ok s := ⟨_, rfl⟩
    exact ⟨s, hs, ((create_database_per_record wTz [wEv] []).2 s hs).2⟩

/-- Counterexample to C5 as stated: `sub_activities` rows are inserted
with a plain `INSERT` under an autoincrement primary key (and
`event_people` rows with no key at all), so re-running the incremental
upsert with the same identifier duplicates them — the store is not
identical to a single run (1 sub-activity row after one run, 2 after
two). -/
theorem upsert_events_twice_cex :
    ((upsert_events wTz [wEv]
        [("w1", ⟨"w1", ["walk"], ["Sam"], [], ["exercise"], none, none, true, false⟩)]
        ["w1"] RelationalStore.empty).bind (fun p =>
      (upsert_events wTz [wEv]
        [("w1", ⟨"w1", ["walk"], ["Sam"], [], ["exercise"], none, none, true, false⟩)]
        ["w1"] p.1).map (fun q =>
          (p.1.subActivities.length, q.1.subActivities.length,
            p.1.eventPeople.length, q.1.eventPeople.length)))) =
      .ok (1, 2, 1, 2) ∧ (1 : Nat) ≠ 2 := by
  constructor
  · rfl
  · decide

/-- The events-table effect of the loader fold, on its own. -/
def evFold (tz : Tz) (cache : List (String × EnrichResult))
    (l : List RawEvent) (rows : List EventRow) : Except String (List EventRow) :=
  l.foldlM
    (fun rows ev =>
      match parse_temporal_fields tz ev with
      | .error e => .error e
      | .ok t => .ok (upsertEventRow (buildEventRow ev t (enrichmentFor cache ev)) rows))
    rows

theorem evFold_cons_error {tz : Tz} {cache : List (String × EnrichResult)}
    {ev : RawEvent} {tl : List RawEvent} {rows : List EventRow} {e : String}
    (hp : parse_temporal_fields tz ev = .error e) :
    evFold tz cache (ev :: tl) rows = .error e := by
  unfold evFold
  rw [List.foldlM_cons]
  show ((match parse_temporal_fields tz ev with
    | .error e => (.error e : Except String (List EventRow))
    | .ok t => .ok (upsertEventRow (buildEventRow ev t (enrichmentFor cache ev)) rows)) >>= _) = _
  rw [hp]
  exact exceptBind_error e _

theorem evFold_cons_ok {tz : Tz} {cache : List (String × EnrichResult)}
    {ev : RawEvent} {tl : List RawEvent} {rows : List EventRow} {t : TemporalFields}
    (hp : parse_temporal_fields tz ev = .ok t) :
    evFold tz cache (ev :: tl) rows =
      evFold tz cache tl (upsertEventRow (buildEventRow ev t (enrichmentFor cache ev)) rows) := by
  unfold evFold
  rw [List.foldlM_cons]
  show ((match parse_temporal_fields tz ev with
    | .error e => (.error e : Except String (List EventRow))
    | .ok t => .ok (upsertEventRow (buildEventRow ev t (enrichmentFor cache ev)) rows)) >>= _) = _
  rw [hp]
  exact exceptBind_ok _ _

theorem loadFold_events_proj {tz : Tz} {cache : List (String × EnrichResult)} :
    ∀ (l : List RawEvent) (store : RelationalStore),
    (l.foldlM (insertEventIntoStore tz cache) store).map (·.events) =
      evFold tz cache l store.events := by
  intro l
  induction l with
  | nil => intro store; rfl
  | cons ev tl ih =>
    intro store
    rw [List.foldlM_cons]
    cases hp : parse_temporal_fields tz ev with
    | error e =>
      rw [insertEventIntoStore_error hp, exceptBind_error, evFold_cons_error hp]
      rfl
    | ok t =>
      have hstep : insertEventIntoStore tz cache store ev =
          .ok { events := upsertEventRow (buildEventRow ev t (enrichmentFor cache ev)) store.events
                subActivities := store.subActivities ++
                  (enrichmentFor cache ev).sub_activities.enum.map
                    (fun p => SubActivityRow.mk (store.nextSubId + p.1) ev.event_id p.2
                      (enrichmentFor cache ev).categories.head?
                      (String.intercalate "," (enrichmentFor cache ev).people))
                eventPeople := store.eventPeople ++ (enrichmentFor cache ev).people.map
                  (fun person => EventPeopleRow.mk ev.event_id person)
                nextSubId := store.nextSubId + (enrichmentFor cache ev).sub_activities.length } := by
        unfold insertEventIntoStore
        rw [hp]
      rw [hstep, exceptBind_ok, evFold_cons_ok hp]
      exact ih _

theorem find?_upsertEventRow_ne {r : EventRow} {k : String} (h : k ≠ r.event_id)
    (l : List EventRow) :
    (upsertEventRow r l).find? (fun x => x.event_id == k) =
      l.find? (fun x => x.event_id == k) := by
  have hbe : (r.event_id == k) = false := beq_eq_false_iff_ne.mpr (Ne.symm h)
  induction l with
  | nil =>
    rw [upsertEventRow]
    rw [List.find?_cons_of_neg _ (by simp [hbe]), List.find?_nil]
  | cons x xs ih =>
    by_cases hx : x.event_id = r.event_id
    · rw [upsertEventRow, if_pos hx]
      rw [List.find?_cons_of_neg _ (by simp [hbe]),
        List.find?_cons_of_neg _ (by simp [hx, hbe])]
    · rw [upsertEventRow, if_neg hx]
      by_cases hxk : x.event_id = k
      · rw [List.find?_cons_of_pos _ (by simp [hxk]), List.find?_cons_of_pos _ (by simp [hxk])]
      · rw [List.find?_cons_of_neg _ (by simp [hxk]), List.find?_cons_of_neg _ (by simp [hxk])]
        exact ih

theorem find?_upsertEventRow_self (r : EventRow) (l : List EventRow) :
    (upsertEventRow r l).find? (fun x => x.event_id == r.event_id) = some r := by
  induction l with
  | nil => rw [upsertEventRow, List.find?_cons_of_pos _ (by simp)]
  | cons x xs ih =>
    by_cases hx : x.event_id = r.event_id
    · rw [upsertEventRow, if_pos hx, List.find?_cons_of_pos _ (by simp)]
    · rw [upsertEventRow, if_neg hx, List.find?_cons_of_neg _ (by simp [hx])]
      exact ih

theorem upsertEventRow_eq_of_find? {r : EventRow} :
    ∀ {l : List EventRow},
    l.find? (fun x => x.event_id == r.event_id) = some r → upsertEventRow r l = l := by
  intro l
  induction l with
  | nil => intro h; rw [List.find?_nil] at h; cases h
  | cons x xs ih =>
    intro h
    by_cases hx : x.event_id = r.event_id
    · rw [List.find?_cons_of_pos _ (by simp [hx])] at h
      cases h
      rw [upsertEventRow, if_pos hx]
    · rw [List.find?_cons_of_neg _ (by simp [hx])] at h
      rw [upsertEventRow, if_neg hx, ih h]

theorem evFold_find?_untouched {tz : Tz} {cache : List (String × EnrichResult)} {k : String} :
    ∀ (l : List RawEvent) (rows rows' : List EventRow),
    evFold tz cache l rows = .ok rows' → (∀ ev ∈ l, ev.event_id ≠ k) →
    rows'.find? (fun x => x.event_id == k) = rows.find? (fun x => x.event_id == k) := by
  intro l
  induction l with
  | nil =>
    intro rows rows' h _
    cases h
    rfl
  | cons ev tl ih =>
    intro rows rows' h hk
    cases hp : parse_temporal_fields tz ev with
    | error e => rw [evFold_cons_error hp] at h; cases h
    | ok t =>
      rw [evFold_cons_ok hp] at h
      have h1 := ih _ rows' h (fun e he => hk e (List.mem_cons_of_mem _ he))
      rw [h1]
      exact find?_upsertEventRow_ne
        (fun hh => hk ev (List.mem_cons_self _ _) hh.symm) rows

theorem evFold_idem {tz : Tz} {cache : List (String × EnrichResult)} :
    ∀ (l : List RawEvent) (rows rows1 : List EventRow),
    (l.map (·.event_id)).Nodup →
    evFold tz cache l rows = .ok rows1 → evFold tz cache l rows1 = .ok rows1 := by
  intro l
  induction l with
  | nil =>
    intro rows rows1 _ h
    cases h
    rfl
  | cons ev tl ih =>
    intro rows rows1 hnd h
    rw [List.map_cons, List.nodup_cons] at hnd
    obtain ⟨hev, hndtl⟩ := hnd
    cases hp : parse_temporal_fields tz ev with
    | error e => rw [evFold_cons_error hp] at h; cases h
    | ok t =>
      rw [evFold_cons_ok hp] at h
      have hfind : rows1.find? (fun x => x.event_id == ev.event_id) =
          some (buildEventRow ev t (enrichmentFor cache ev)) := by
        have hne : ∀ e ∈ tl, e.event_id ≠ ev.event_id := by
          intro e he heq
          exact hev (heq ▸ List.mem_map_of_mem _ he)
        have hb : (buildEventRow ev t (enrichmentFor cache ev)).event_id = ev.event_id := rfl
        rw [evFold_find?_untouched tl _ rows1 h hne]
        simp only [← hb]
        exact find?_upsertEventRow_self _ rows
      rw [evFold_cons_ok hp, upsertEventRow_eq_of_find? hfind]
      exact ih _ rows1 hndtl h

theorem exceptMap_ok {α β : Type} (f : α → β) (a : α) :
    Except.map f (Except.ok a : Except String α) = .ok (f a) := rfl

/-- C5 (amended): only the `events` table is replace-on-conflict by the
event identifier, so re-running the incremental upsert with the same
identifiers (assumed pairwise distinct) succeeds, reports the same
count, and leaves the `events` table identical — while `sub_activities`
and `event_people` rows, inserted with plain `INSERT`s, are duplicated
by the retry (see the counterexample). -/
theorem upsert_events_events_idem (tz : Tz) (events : List RawEvent)
    (cache : List (String × EnrichResult)) (ids : List String)
    (store s1 : RelationalStore) (n : Nat)
    (hnd : ((events.filter (fun ev => ev.event_id ∈ ids)).map (·.event_id)).Nodup)
    (h1 : upsert_events tz events cache ids store = .ok (s1, n)) :
    ∃ s2, upsert_events tz events cache ids s1 = .ok (s2, n) ∧ s2.events = s1.events := by
  simp only [upsert_events] at h1 ⊢
  cases hf : (events.filter (fun ev => ev.event_id ∈ ids)).foldlM
      (insertEventIntoStore tz cache) store with
  | error e => rw [hf, exceptBind_error] at h1; cases h1
  | ok sA =>
    rw [hf, exceptBind_ok] at h1
    cases h1
    have hproj := @loadFold_events_proj tz cache
      (events.filter (fun ev => ev.event_id ∈ ids)) store
    rw [hf, exceptMap_ok] at hproj
    have hidem := evFold_idem _ _ _ hnd hproj.symm
    have hproj2 := @loadFold_events_proj tz cache
      (events.filter (fun ev => ev.event_id ∈ ids)) s1
    rw [hidem] at hproj2
    cases hf2 : (events.filter (fun ev => ev.event_id ∈ ids)).foldlM
        (insertEventIntoStore tz cache) s1 with
    | error e => rw [hf2] at hproj2; cases hproj2
    | ok s2 =>
      rw [hf2, exceptMap_ok] at hproj2
      refine ⟨s2, ?_, ?_⟩
      · rfl
      · exact Except.ok.inj hproj2

/-- Shared concrete enrichment cache for witnesses. -/
def wCache : List (String × EnrichResult) :=
  [("w1", ⟨"w1", ["walk"], ["Sam"], [], ["exercise"], none, none, true, false⟩)]

/-- Witness for C5 (amended) at a concrete store and event. -/
theorem upsert_events_events_idem_witness :
    ∃ s1 s2, upsert_events wTz [wEv] wCache ["w1"] RelationalStore.empty = .ok (s1, 1) ∧
      upsert_events wTz [wEv] wCache ["w1"] s1 = .ok (s2, 1) ∧ s2.events = s1.events := by
  obtain ⟨s1, hs1⟩ :
      ∃ s1, upsert_events wTz [wEv] wCache ["w1"] RelationalStore.empty = .ok (s1, 1) :=
    ⟨_, rfl⟩
  obtain ⟨s2, hs2, heq⟩ := upsert_events_events_idem wTz [wEv] wCache ["w1"]
    RelationalStore.empty s1 1 (by decide) hs1
  exact ⟨s1, s2, hs1, hs2, heq⟩

theorem mem_of_mem_chunksAux {n : Nat} :
    ∀ (fuel : Nat) (l : List α) (b : List α), b ∈ chunksAux n fuel l →
    ∀ x ∈ b, x ∈ l := by
  intro fuel
  induction fuel with
  | zero => intro l b hb; simp [chunksAux] at hb
  | succ f ih =>
    intro l b hb x hx
    cases l with
    | nil => simp [chunksAux] at hb
    | cons a as =>
      rcases List.mem_cons.mp hb with rfl | hb'
      · exact List.take_subset _ _ hx
      · exact List.drop_subset _ _ (ih _ _ hb' x hx)

theorem mem_of_mem_chunks {n : Nat} {l : List α} {b : List α}
    (hb : b ∈ chunks n l) : ∀ x ∈ b, x ∈ l :=
  mem_of_mem_chunksAux _ _ _ hb

theorem alistLookup_insert_self {α : Type} (k : String) (v : α) (c : List (String × α)) :
    alistLookup k (alistInsert k v c) = some v := by
  induction c with
  | nil => simp [alistInsert, alistLookup]
  | cons p ps ih =>
    by_cases hp : p.1 = k
    · rw [alistInsert, if_pos hp, alistLookup, if_pos rfl]
    · rw [alistInsert, if_neg hp, alistLookup, if_neg hp]
      exact ih

theorem alistLookup_insert_ne {α : Type} {k' k : String} (h : k' ≠ k) (v : α)
    (c : List (String × α)) :
    alistLookup k' (alistInsert k v c) = alistLookup k' c := by
  have hkk : ¬(k = k') := fun hh => h hh.symm
  induction c with
  | nil =>
    simp only [alistInsert, alistLookup]
    rw [if_neg hkk]
  | cons p ps ih =>
    by_cases hp : p.1 = k
    · simp only [alistInsert, if_pos hp, alistLookup]
      rw [if_neg hkk, if_neg (hp ▸ hkk)]
    · simp only [alistInsert, if_neg hp, alistLookup]
      by_cases hpk : p.1 = k'
      · rw [if_pos hpk, if_pos hpk]
      · rw [if_neg hpk, if_neg hpk]
        exact ih

theorem alistLookup_insert_mono {α : Type} {k' : String} {c : List (String × α)}
    (h : alistLookup k' c ≠ none) (k : String) (v : α) :
    alistLookup k' (alistInsert k v c) ≠ none := by
  by_cases hk : k' = k
  · subst hk
    rw [alistLookup_insert_self]
    exact fun hh => by cases hh
  · rw [alistLookup_insert_ne hk]
    exact h

theorem cacheFold_mono {k : String} :
    ∀ (results : List EnrichResult) (c : List (String × EnrichResult)),
    alistLookup k c ≠ none →
    alistLookup k (results.foldl
      (fun c res => if res.event_id ≠ "" then alistInsert res.event_id res c else c) c) ≠
      none := by
  intro results
  induction results with
  | nil => intro c h; exact h
  | cons r rs ih =>
    intro c h
    rw [List.foldl_cons]
    by_cases hr : r.event_id ≠ ""
    · rw [if_pos hr]
      exact ih _ (alistLookup_insert_mono h _ _)
    · rw [if_neg hr]
      exact ih _ h

/-- The invariant preserved over the Pass-2 batch loop, relative to the
cache the pass started from. -/
def Pass2Inv (c0 : List (String × EnrichResult)) (st : Pass2State) : Prop :=
  (∀ k, alistLookup k c0 ≠ none → alistLookup k st.cache ≠ none) ∧
  (∀ b ∈ st.dispatched, ∀ ev ∈ b, alistLookup ev.event_id c0 = none)

theorem pass2Step_inv {c0 : List (String × EnrichResult)} {st : Pass2State}
    (h : Pass2Inv c0 st) (batch : List RawEvent) : Pass2Inv c0 (pass2Step st batch) := by
  obtain ⟨hmono, hdisp⟩ := h
  unfold pass2Step
  by_cases he : (batch.filter (fun ev => alistLookup ev.event_id st.cache = none)).isEmpty
  · rw [if_pos he]
    exact ⟨hmono, hdisp⟩
  · rw [if_neg he]
    constructor
    · intro k hk
      exact cacheFold_mono _ _ (hmono k hk)
    · intro b hb ev hev
      rcases List.mem_append.mp hb with hb' | hb'
      · exact hdisp b hb' ev hev
      · have hbe : b = batch.filter (fun ev => alistLookup ev.event_id st.cache = none) := by
          simpa using hb'
        subst hbe
        have := List.of_mem_filter hev
        have hnone : alistLookup ev.event_id st.cache = none := by simpa using this
        by_contra hne
        exact (hmono ev.event_id (by simpa using hne)) hnone

theorem pass2Fold_inv {c0 : List (String × EnrichResult)} :
    ∀ (bs : List (List RawEvent)) (st : Pass2State),
    Pass2Inv c0 st → Pass2Inv c0 (bs.foldl pass2Step st) := by
  intro bs
  induction bs with
  | nil => intro st h; exact h
  | cons b tl ih =>
    intro st h
    rw [List.foldl_cons]
    exact ih _ (pass2Step_inv h b)

theorem pass2Fold_cached_noop :
    ∀ (bs : List (List RawEvent)) (st : Pass2State),
    (∀ b ∈ bs, ∀ ev ∈ b, alistLookup ev.event_id st.cache ≠ none) →
    bs.foldl pass2Step st = st := by
  intro bs
  induction bs with
  | nil => intro st _; rfl
  | cons b tl ih =>
    intro st h
    rw [List.foldl_cons]
    have hfil : b.filter (fun ev => alistLookup ev.event_id st.cache = none) = [] := by
      rw [List.filter_eq_nil_iff]
      intro ev hev
      simpa using h b (List.mem_cons_self _ _) ev hev
    have hstep : pass2Step st b = st := by
      unfold pass2Step
      rw [hfil]
      rfl
    rw [hstep]
    exact ih st (fun b' hb' => h b' (List.mem_cons_of_mem _ hb'))

/-- C2: a Pass-2 run over records that are all already in the enrichment
cache makes zero service calls, dispatches no batch, and returns the
cache unchanged (the mapping of the previous run); and in every run, an
identifier present in the starting cache is never part of any dispatched
batch. -/
theorem run_pass2_enrichment_cache_hits (events : List RawEvent)
    (c0 : List (String × EnrichResult))
    (oracle : List (List (Option (List EnrichResult)))) :
    ((∀ ev ∈ events, alistLookup ev.event_id c0 ≠ none) →
      run_pass2_enrichment events c0 oracle = ⟨c0, oracle, 0, []⟩) ∧
    (∀ b ∈ (run_pass2_enrichment events c0 oracle).dispatched, ∀ ev ∈ b,
      alistLookup ev.event_id c0 = none) := by
  constructor
  · intro h
    unfold run_pass2_enrichment
    exact pass2Fold_cached_noop _ _
      (fun b hb ev hev => h ev (mem_of_mem_chunks hb ev hev))
  · exact (pass2Fold_inv (chunks 20 events) ⟨c0, oracle, 0, []⟩
      ⟨fun k hk => hk, by simp⟩).2

/-- Witness for C2: a fully cached run returns the cache untouched with
zero calls and no dispatched batch. -/
theorem run_pass2_enrichment_cache_hits_witness :
    run_pass2_enrichment [wEv] wCache [] = ⟨wCache, [], 0, []⟩ :=
  (run_pass2_enrichment_cache_hits [wEv] wCache []).1 (by decide)

/-- Counterexample to C4 as stated: `run_enrichment_batch` validates only
that the parsed response is a JSON array — category names are taken
verbatim and never checked against the taxonomy, so a service response
carrying a category outside the vocabulary flows into the produced
EnrichedRecord mapping unchanged. -/
theorem enrichment_no_category_validation_cex :
    alistLookup "c1" (run_pass2_enrichment
        [⟨"c1", "code", .dateOnly ⟨2024, 6, 1⟩, .dateOnly ⟨2024, 6, 2⟩, "", "", ""⟩] []
        [[some [⟨"c1", ["code"], [], [], ["bogus_category"], none, none, true, false⟩]]]).cache =
      some ⟨"c1", ["code"], [], [], ["bogus_category"], none, none, true, false⟩ ∧
    "bogus_category" ∉ validNames ⟨[⟨"work", "d", []⟩]⟩ := by
  constructor
  · rfl
  · decide

theorem batchGo_mem {batch : List RawEvent} {r : EnrichResult} :
    ∀ (k : Nat) (attempts : List (Option (List EnrichResult))),
    r ∈ (batchGo batch k attempts).1 →
    (∃ v, some v ∈ attempts ∧ r ∈ v) ∨ ∃ ev ∈ batch, r = minimalEnrichment ev := by
  intro k
  induction k with
  | zero =>
    intro attempts h
    exact Or.inr (by simpa [batchGo, eq_comm] using h)
  | succ k ih =>
    intro attempts h
    cases attempts with
    | nil =>
      rcases ih [] h with ⟨v, hv, _⟩ | h'
      · cases hv
      · exact Or.inr h'
    | cons a rest =>
      cases a with
      | none =>
        rcases ih rest h with ⟨v, hv, hr⟩ | h'
        · exact Or.inl ⟨v, List.mem_cons_of_mem _ hv, hr⟩
        · exact Or.inr h'
      | some v => exact Or.inl ⟨v, List.mem_cons_self _ _, by simpa [batchGo] using h⟩

theorem mem_alistInsert {α : Type} {p : String × α} {k : String} {v : α} :
    ∀ {c : List (String × α)}, p ∈ alistInsert k v c → p = (k, v) ∨ p ∈ c := by
  intro c
  induction c with
  | nil => intro h; simpa [alistInsert] using h
  | cons q qs ih =>
    intro h
    by_cases hq : q.1 = k
    · rw [alistInsert, if_pos hq] at h
      rcases List.mem_cons.mp h with rfl | h'
      · exact Or.inl rfl
      · exact Or.inr (List.mem_cons_of_mem _ h')
    · rw [alistInsert, if_neg hq] at h
      rcases List.mem_cons.mp h with rfl | h'
      · exact Or.inr (List.mem_cons_self _ _)
      · rcases ih h' with h'' | h''
        · exact Or.inl h''
        · exact Or.inr (List.mem_cons_of_mem _ h'')

theorem alistLookup_mem {α : Type} {k : String} {r : α} :
    ∀ {c : List (String × α)}, alistLookup k c = some r → (k, r) ∈ c := by
  intro c
  induction c with
  | nil => intro h; cases h
  | cons p ps ih =>
    intro h
    by_cases hp : p.1 = k
    · rw [alistLookup, if_pos hp] at h
      cases h
      exact hp ▸ List.mem_cons_self _ _
    · rw [alistLookup, if_neg hp] at h
      exact List.mem_cons_of_mem _ (ih h)

/-- All category names appearing in cache entries lie in `names`. -/
def CacheCatsOK (names : List String) (c : List (String × EnrichResult)) : Prop :=
  ∀ p ∈ c, ∀ cn ∈ p.2.categories, cn ∈ names

/-- All category names appearing in any parsed oracle response lie in
`names` (the service complied with the prompt's vocabulary restriction). -/
def OracleCatsOK (names : List String)
    (oracle : List (List (Option (List EnrichResult)))) : Prop :=
  ∀ b ∈ oracle, ∀ att ∈ b, ∀ r ∈ att.getD [], ∀ cn ∈ r.categories, cn ∈ names

theorem cacheFold_catsOK {names : List String} :
    ∀ (results : List EnrichResult) (c : List (String × EnrichResult)),
    CacheCatsOK names c → (∀ r ∈ results, ∀ cn ∈ r.categories, cn ∈ names) →
    CacheCatsOK names (results.foldl
      (fun c res => if res.event_id ≠ "" then alistInsert res.event_id res c else c) c) := by
  intro results
  induction results with
  | nil => intro c hc _; exact hc
  | cons r rs ih =>
    intro c hc hres
    rw [List.foldl_cons]
    refine ih _ ?_ (fun r' hr' => hres r' (List.mem_cons_of_mem _ hr'))
    by_cases hr : r.event_id ≠ ""
    · rw [if_pos hr]
      intro p hp
      rcases mem_alistInsert hp with rfl | hp'
      · exact hres r (List.mem_cons_self _ _)
      · exact hc p hp'
    · rw [if_neg hr]
      exact hc

theorem pass2Step_catsOK {names : List String} {st : Pass2State}
    (hc : CacheCatsOK names st.cache) (ho : OracleCatsOK names st.oracle)
    (batch : List RawEvent) :
    CacheCatsOK names (pass2Step st batch).cache ∧
      OracleCatsOK names (pass2Step st batch).oracle := by
  unfold pass2Step
  by_cases he : (batch.filter (fun ev => alistLookup ev.event_id st.cache = none)).isEmpty
  · rw [if_pos he]
    exact ⟨hc, ho⟩
  · rw [if_neg he]
    constructor
    · refine cacheFold_catsOK _ _ hc ?_
      intro r hr cn hcn
      rcases batchGo_mem 3 _ hr with ⟨v, hv, hrv⟩ | ⟨ev, _, rfl⟩
      · cases horacle : st.oracle with
        | nil => rw [horacle] at hv; cases hv
        | cons b rest =>
          rw [horacle] at hv
          exact ho b (horacle ▸ List.mem_cons_self _ _) (some v) hv r hrv cn hcn
      · cases hcn
    · intro b hb
      exact ho b (List.tail_subset _ hb)

theorem pass2Fold_catsOK {names : List String} :
    ∀ (bs : List (List RawEvent)) (st : Pass2State),
    CacheCatsOK names st.cache → OracleCatsOK names st.oracle →
    CacheCatsOK names (bs.foldl pass2Step st).cache := by
  intro bs
  induction bs with
  | nil => intro st hc _; exact hc
  | cons b tl ih =>
    intro st hc ho
    rw [List.foldl_cons]
    obtain ⟨hc', ho'⟩ := pass2Step_catsOK hc ho b
    exact ih _ hc' ho'

/-- C4 (amended): the Structured Enrichment Pass performs no validation
of category names against the taxonomy (only the prompt restricts the
vocabulary): output records carry the parsed response's categories
verbatim, the degraded fallback carries the empty list, so taxonomy
closure holds for every produced EnrichedRecord exactly under the
assumption that every parsed service response's categories lie in the
taxonomy's name set (and the starting cache is closed); an
out-of-vocabulary category in a response survives into the mapping (see
the counterexample). -/
theorem run_pass2_taxonomy_closure (tax : Taxonomy) (events : List RawEvent)
    (c0 : List (String × EnrichResult))
    (oracle : List (List (Option (List EnrichResult))))
    (hor : OracleCatsOK (validNames tax) oracle)
    (hc0 : CacheCatsOK (validNames tax) c0) :
    ∀ k r, alistLookup k (run_pass2_enrichment events c0 oracle).cache = some r →
      ∀ cn ∈ r.categories, cn ∈ validNames tax := by
  intro k r hk cn hcn
  have hc := pass2Fold_catsOK (chunks 20 events) ⟨c0, oracle, 0, []⟩ hc0 hor
  exact hc (k, r) (alistLookup_mem hk) cn hcn

/-- Witness for C4 (amended): with a compliant service response every
produced record's categories stay inside the taxonomy's names. -/
theorem run_pass2_taxonomy_closure_witness :
    "work" ∈ validNames ⟨[⟨"work", "d", []⟩]⟩ :=
  run_pass2_taxonomy_closure ⟨[⟨"work", "d", []⟩]⟩
    [⟨"c1", "code", .dateOnly ⟨2024, 6, 1⟩, .dateOnly ⟨2024, 6, 2⟩, "", "", ""⟩] []
    [[some [⟨"c1", ["code"], [], [], ["work"], none, none, true, false⟩]]]
    (by unfold OracleCatsOK; decide) (by unfold CacheCatsOK; decide)
    "c1" ⟨"c1", ["code"], [], [], ["work"], none, none, true, false⟩ rfl
    "work" (by decide)

/-- C1: the Incremental Sync Orchestrator's new set is exactly the
fetched identifiers not present in the relational store (exact string
equality), and when that set is empty `_sync_events` returns the
up-to-date message with every piece of state — CSV log, caches,
relational store, vector table, vector-handle flag — unchanged. -/
theorem sync_events_diff (tz : Tz)
    (o1 : List (List (Option (List (String × List String)))))
    (o2 : List (List (Option (List EnrichResult))))
    (st : SyncState) (fetched : List RawEvent) :
    (∀ id, id ∈ (newEventsOf st fetched).map (·.event_id) ↔
      (id ∈ fetched.map (·.event_id) ∧ id ∉ st.store.events.map (·.event_id))) ∧
    (newEventsOf st fetched = [] →
      sync_events tz o1 o2 st fetched =
        .ok ("Database is up to date — no new events found.", st)) := by
  constructor
  · intro id
    simp only [newEventsOf, List.mem_map, List.mem_filter, decide_eq_true_eq]
    constructor
    · rintro ⟨ev, ⟨hevf, hnot⟩, rfl⟩
      exact ⟨⟨ev, hevf, rfl⟩, by simpa using hnot⟩
    · rintro ⟨⟨ev, hevf, rfl⟩, hnot⟩
      exact ⟨ev, ⟨hevf, by simpa using hnot⟩, rfl⟩
  · intro h
    simp only [sync_events, h]
    rfl

/-- A minimal relational-store row carrying only its identifier, for
witness states. -/
def wRow (id : String) : EventRow :=
  { event_id := id, summary := "", start_dt := .malformed, end_dt := .malformed
    date := ⟨2024, 1, 1⟩, year := 2024, month := 1, day_of_week := "Monday"
    start_hour := 0, duration_minutes := 0, categories := "", people := ""
    locations := "", work_depth := none, mood := none, is_productive := false
    is_wasted_time := false, description := "", location_raw := "" }

/-- A witness sync state whose store already holds identifiers A, B, C. -/
def wSync : SyncState :=
  ⟨[], [], [], ⟨[wRow "A", wRow "B", wRow "C"], [], [], 1⟩, [], true⟩

/-- A fetched raw event with the given identifier. -/
def fEv (id : String) : RawEvent :=
  ⟨id, "", .dateOnly ⟨2024, 6, 1⟩, .dateOnly ⟨2024, 6, 2⟩, "", "", ""⟩

/-- Witness for C1: existing {A,B,C} with fetched {B,C,D,E} yields
exactly {D,E}; fetching only {B,C} reports up to date and leaves the
state untouched. -/
theorem sync_events_diff_witness :
    "D" ∈ (newEventsOf wSync [fEv "B", fEv "C", fEv "D", fEv "E"]).map (·.event_id) ∧
    (newEventsOf wSync [fEv "B", fEv "C", fEv "D", fEv "E"]).map (·.event_id) = ["D", "E"] ∧
    sync_events wTz [] [] wSync [fEv "B", fEv "C"] =
      .ok ("Database is up to date — no new events found.", wSync) := by
  refine ⟨?_, ?_, ?_⟩
  · exact ((sync_events_diff wTz [] [] wSync [fEv "B", fEv "C", fEv "D", fEv "E"]).1 "D").mpr
      ⟨by decide, by decide⟩
  · decide
  · exact (sync_events_diff wTz [] [] wSync [fEv "B", fEv "C"]).2 (by decide)
